import Mathlib

/-!
Shallow embedding of the pegnetd sync engine (`node/sync.go`) and proofs of the
frozen claims about it.  Pure Go functions become Lean functions; the sqlite
store becomes an explicit `Store` record threaded through every operation; a Go
function that both mutates `sqlTx` and may return an error becomes a function
returning `Store × Option PegErr` (the mutations performed before the error are
retained, exactly as they are inside an open `sql.Tx`; the caller decides
whether to roll back).  Store operations that live in the repository's `pegnet`
package (not part of the given sources) are modelled from the spec and marked
as such in their doc comments.
-/

namespace Pegnetd

/-- A 32-byte Factom address identifier (`factom.FAAddress`), abstracted to its
numeric identity; the direct byte copy used by the burn ingester is the
identity on this representation. -/
structure FAAddress where
  id : Nat
deriving DecidableEq, Repr

/-- The fixed asset set (`fat2.PTicker`).  `FCT` is the pegged pFCT asset
(`fat2.PTickerFCT`); a representative subset of the fixed ticker list is
carried, which is enough for every claim. -/
inductive PTicker
  | PEG
  | FCT
  | USD
  | XAU
deriving DecidableEq, Repr

/-- A 32-byte entry hash (`factom.Bytes32`), abstracted to its identity. -/
structure Hash where
  val : Nat
deriving DecidableEq, Repr

/-- The errors the sync engine distinguishes.  `insufficientBalance` is
`pegnet.InsufficientBalanceErr`; `ratesMustExist` is the
`fmt.Errorf("rates must exist ...")` of `applyTransactionBatch`;
`convertErr` is an error from `conversions.Convert`; `fetchErr` stands for a
failed network fetch inside `SyncBlock`. -/
inductive PegErr
  | insufficientBalance
  | ratesMustExist
  | convertErr
  | fetchErr
deriving DecidableEq, Repr

/-- `fat2.Transaction.Input`: address, ticker and amount. -/
structure TxInput where
  address : FAAddress
  ptype : PTicker
  amount : Nat
deriving DecidableEq, Repr

/-- One output of a transfer transaction (`fat2.AddressAmountTuple`). -/
structure Transfer where
  address : FAAddress
  amount : Nat
deriving DecidableEq, Repr

/-- `fat2.Transaction`: an input plus either a conversion ticker or a list of
transfers.  `conversion = none` models `Conversion == PTickerInvalid`. -/
structure Transaction where
  input : TxInput
  conversion : Option PTicker
  transfers : List Transfer
deriving DecidableEq, Repr

/-- `tx.IsConversion()`. -/
def txIsConversion (t : Transaction) : Bool := t.conversion.isSome

/-- `fat2.TransactionBatch`.  `valid` records the outcome of
`txBatch.Validate()` (an external fat2 check of structure and timestamp
window). -/
structure TransactionBatch where
  hash : Hash
  transactions : List Transaction
  valid : Bool
deriving DecidableEq, Repr

/-- `txBatch.HasConversions()`. -/
def hasConversions (b : TransactionBatch) : Bool := b.transactions.any txIsConversion

/-- A row inserted by `InsertTransactionRelation`. -/
structure Relation where
  addrId : Int
  hash : Hash
  txIndex : Nat
  isOutput : Bool
  isConv : Bool
deriving DecidableEq, Repr

/-- A rate vector (`map[fat2.PTicker]uint64`), as an association list; a
missing ticker reads as `0`, like a missing key of a Go map. -/
abbrev Rates := List (PTicker × Nat)

/-- Go map read `rates[t]` with the zero default. -/
def ratesGet (r : Rates) (t : PTicker) : Nat :=
  match r.lookup t with
  | some v => v
  | none => 0

/-- A row of the holding table (`InsertTransactionBatchHolding`). -/
structure HeldBatch where
  batch : TransactionBatch
  enteredHeight : Nat
  keyMR : Hash
deriving DecidableEq, Repr

/-- The persisted store.  Balances are a total map; `relations`, `holding`,
`rates` and `gradeBlocks` are append-only tables; `syncedHeight` is the
persisted sync cursor record. -/
structure Store where
  balances : FAAddress → PTicker → Nat
  relations : List Relation
  holding : List HeldBatch
  rates : List (Nat × Rates)
  gradeBlocks : List Nat
  syncedHeight : Nat

/-- Point update of a balance table. -/
def updBal (f : FAAddress → PTicker → Nat) (a : FAAddress) (t : PTicker) (v : Nat) :
    FAAddress → PTicker → Nat :=
  fun a' t' => if a' = a ∧ t' = t then v else f a' t'

/-- The store's numeric row id for an address. -/
def addrIdOf (a : FAAddress) : Int := a.id

/-- Modelled from the spec: `SubFromBalance(tx, addr, ticker, amount)` of the
repository's `pegnet` store package (not under the given sources).  It returns
the address row id, the recoverable `InsufficientBalance` as `tx_err` when the
account lacks funds (returning before applying any mutation), and otherwise
debits the balance. -/
def subFromBalance (s : Store) (a : FAAddress) (t : PTicker) (amt : Nat) :
    Int × Option PegErr × Store :=
  if s.balances a t < amt then (addrIdOf a, some .insufficientBalance, s)
  else (addrIdOf a, none,
    { s with balances := updBal s.balances a t (s.balances a t - amt) })

/-- Modelled from the spec: `AddToBalance(tx, addr, ticker, amount)` of the
`pegnet` store package; credits the balance and returns the address row id. -/
def addToBalance (s : Store) (a : FAAddress) (t : PTicker) (amt : Nat) : Int × Store :=
  (addrIdOf a,
    { s with balances := updBal s.balances a t (s.balances a t + amt) })

/-- Modelled from the spec: `InsertTransactionRelation` of the `pegnet` store
package; appends an audit row keyed by the batch hash. -/
def insertTransactionRelation (s : Store) (addrId : Int) (h : Hash) (txIndex : Nat)
    (isOutput isConv : Bool) : Store :=
  { s with relations := s.relations ++ [⟨addrId, h, txIndex, isOutput, isConv⟩] }

/-- Modelled from the spec: `InsertTransactionBatchHolding` of the `pegnet`
store package; appends the batch to the holding table tagged with its entry
height and source KeyMR. -/
def insertTransactionBatchHolding (s : Store) (b : TransactionBatch) (height : Nat)
    (keyMR : Hash) : Store :=
  { s with holding := s.holding ++ [⟨b, height, keyMR⟩] }

/-- Modelled from the spec: `IsReplayTransaction(tx, hash)` of the `pegnet`
store package — the ReplayMark is the set of batch hashes already applied,
realized as batch-hash membership among the inserted relation rows. -/
def isReplayTransaction (s : Store) (h : Hash) : Bool :=
  s.relations.any (fun r => r.hash = h)

/-- The signed 64-bit reinterpretation `int64(x)` of a `uint64`. -/
def int64OfUInt64 (n : Nat) : Int :=
  if n % 2 ^ 64 < 2 ^ 63 then ((n % 2 ^ 64 : Nat) : Int)
  else ((n % 2 ^ 64 : Nat) : Int) - 2 ^ 64

/-- The unsigned 64-bit reinterpretation `uint64(x)` of an `int64`. -/
def uint64OfInt64 (i : Int) : Nat := (i % 2 ^ 64).toNat

/-- Modelled from the spec: `conversions.Convert(amount, fromRate, toRate)` of
the external pegnet conversions module — `floor(amount * fromRate / toRate)`
computed with a wide intermediate (no overflow), rejecting zero rates and any
result that does not fit in an `int64`. -/
def conversionsConvert (amount : Int) (fromRate toRate : Nat) : Except PegErr Int :=
  if fromRate = 0 ∨ toRate = 0 then .error .convertErr
  else
    let r : Int := amount * (fromRate : Int) / (toRate : Int)
    if r < -(2 ^ 63 : Int) ∨ (2 ^ 63 : Int) ≤ r then .error .convertErr else .ok r

/-- The Go nil-or-empty test `rates == nil || len(rates) == 0`. -/
def ratesNilOrEmpty (rates : Option Rates) : Bool :=
  match rates with
  | none => true
  | some r => r.isEmpty

/-- The `transfers` inner loop of `applyTransactionBatch`: credit each output
and record an output-side relation row. -/
def applyTransfers (s : Store) (h : Hash) (txIndex : Nat) (t : PTicker) :
    List Transfer → Store
  | [] => s
  | tr :: rest =>
    let p := addToBalance s tr.address t tr.amount
    applyTransfers (insertTransactionRelation p.2 p.1 h txIndex true false) h txIndex t rest

/-- The per-transaction loop of `applyTransactionBatch` (sync.go lines
338-379), threading the open `sql.Tx` state.  The second component is the
returned error; mutations made before an error are retained, as in a live
`sql.Tx`.  A zero input or target rate returns success immediately, dropping
the remaining transactions of the batch (the `return nil` on the zero-rate
branch). -/
def applyTxList (s : Store) (h : Hash) (txIndex : Nat) (rates : Option Rates) :
    List Transaction → Store × Option PegErr
  | [] => (s, none)
  | tx :: rest =>
    match subFromBalance s tx.input.address tx.input.ptype tx.input.amount with
    | (_, some txErr, s1) => (s1, some txErr)
    | (inputAdrID, none, s1) =>
      let s2 := insertTransactionRelation s1 inputAdrID h txIndex false (txIsConversion tx)
      match tx.conversion with
      | some conv =>
        if ratesNilOrEmpty rates then (s2, some .ratesMustExist)
        else
          let r := rates.getD []
          if ratesGet r tx.input.ptype = 0 ∨ ratesGet r conv = 0 then (s2, none)
          else
            match conversionsConvert (int64OfUInt64 tx.input.amount)
                (ratesGet r tx.input.ptype) (ratesGet r conv) with
            | .error e => (s2, some e)
            | .ok outputAmount =>
              let s3 := (addToBalance s2 tx.input.address conv (uint64OfInt64 outputAmount)).2
              applyTxList s3 h (txIndex + 1) rates rest
      | none =>
        let s3 := applyTransfers s2 h txIndex tx.input.ptype tx.transfers
        applyTxList s3 h (txIndex + 1) rates rest

/-- `applyTransactionBatch` (sync.go lines 337-387). -/
def applyTransactionBatch (s : Store) (txBatch : TransactionBatch)
    (rates : Option Rates) (_currentHeight : Nat) : Store × Option PegErr :=
  applyTxList s txBatch.hash 0 rates txBatch.transactions

/-- The largest element of the list strictly below the bound, if any. -/
def maxBelow (bound : Nat) : List Nat → Option Nat
  | [] => none
  | r :: rest =>
    match maxBelow bound rest with
    | none => if r < bound then some r else none
    | some m => if r < bound then some (max r m) else some m

/-- Modelled from the spec: `SelectMostRecentRatesBeforeHeight(ctx, tx, H)` of
the `pegnet` store package — the height of the most recent rate epoch strictly
before `H`, with the drain having nothing to do when none exists. -/
def mostRecentRateHeightBefore (s : Store) (h : Nat) : Option Nat :=
  maxBelow h (s.rates.map Prod.fst)

/-- Modelled from the spec: `SelectPendingRates(ctx, tx, H)` of the `pegnet`
store package — the most recently finalized rate vector at or before `H`
(`nil` when none exists). -/
def selectPendingRates (s : Store) (h : Nat) : Option Rates :=
  match maxBelow (h + 1) (s.rates.map Prod.fst) with
  | none => none
  | some rh =>
    match s.rates.lookup rh with
    | some r => some r
    | none => none

/-- Modelled from the spec: `SelectTransactionBatchesInHoldingAtHeight(i)` of
the `pegnet` store package — all held batches whose entry height is `i`, in
insertion order. -/
def selectHolding (s : Store) (i : Nat) : List TransactionBatch :=
  (s.holding.filter (fun hb => hb.enteredHeight = i)).map (fun hb => hb.batch)

/-- The inner batch loop of `ApplyTransactionBatchesInHolding` (sync.go lines
269-285).  The boolean is true when the loop performed the early
`return nil` — which the source does on any application error other than
`InsufficientBalanceErr` — so the whole drain stops and reports success.
Invalid, replayed and insufficient-balance batches are skipped and the loop
continues. -/
def drainBatches (s : Store) (rates : Option Rates) (currentHeight : Nat) :
    List TransactionBatch → Store × Bool
  | [] => (s, false)
  | b :: rest =>
    if b.valid = false then drainBatches s rates currentHeight rest
    else if isReplayTransaction s b.hash then drainBatches s rates currentHeight rest
    else
      match applyTransactionBatch s b rates currentHeight with
      | (s', some err) =>
        if err = .insufficientBalance then drainBatches s' rates currentHeight rest
        else (s', true)
      | (s', none) => drainBatches s' rates currentHeight rest

/-- The height loop `for i := height; i < currentHeight; i++` of
`ApplyTransactionBatchesInHolding`, taken over the explicit list of heights;
an early `return nil` from the batch loop stops the height loop as well. -/
def drainHeights (s : Store) (rates : Option Rates) (currentHeight : Nat) :
    List Nat → Store × Option PegErr
  | [] => (s, none)
  | i :: rest =>
    match drainBatches s rates currentHeight (selectHolding s i) with
    | (s', true) => (s', none)
    | (s', false) => drainHeights s' rates currentHeight rest

/-- `ApplyTransactionBatchesInHolding` (sync.go lines 253-288): find the most
recent rate height strictly before the current height, load the pending rates,
and drain every entered height in the half-open window up to the current
height. -/
def ApplyTransactionBatchesInHolding (s : Store) (currentHeight : Nat) :
    Store × Option PegErr :=
  match mostRecentRateHeightBefore s currentHeight with
  | none => (s, none)
  | some height =>
    drainHeights s (selectPendingRates s currentHeight) currentHeight
      (List.range' height (currentHeight - height))

/-- `ApplyTransactionBlock` (sync.go lines 293-333), over the entry list of the
transaction-chain entry block; `none` entries failed `UnmarshalEntry`.
Conversion-bearing batches are inserted into holding; the rest are applied
immediately with `nil` rates, swallowing `InsufficientBalanceErr` and
propagating any other error. -/
def ApplyTransactionBlock (s : Store) (entries : List (Option TransactionBatch))
    (height : Nat) (keyMR : Hash) : Store × Option PegErr :=
  match entries with
  | [] => (s, none)
  | none :: rest => ApplyTransactionBlock s rest height keyMR
  | some b :: rest =>
    if b.valid = false then ApplyTransactionBlock s rest height keyMR
    else if isReplayTransaction s b.hash then ApplyTransactionBlock s rest height keyMR
    else if hasConversions b then
      ApplyTransactionBlock (insertTransactionBatchHolding s b height keyMR) rest height keyMR
    else
      match applyTransactionBatch s b none height with
      | (s', some err) =>
        if err = .insufficientBalance then ApplyTransactionBlock s' rest height keyMR
        else (s', some err)
      | (s', none) => ApplyTransactionBlock s' rest height keyMR

/-- One side of a factoid transaction (`factom.FactoidTransactionIO`). -/
structure FactoidTxIO where
  address : FAAddress
  amount : Nat
deriving DecidableEq, Repr

/-- A factoid transaction of the native block, restricted to the fields the
burn scan reads. -/
structure FactoidTx where
  fctInputs : List FactoidTxIO
  fctOutputs : List FactoidTxIO
  ecOutputs : List FactoidTxIO
deriving DecidableEq, Repr

/-- The distinguished burn sentinel address (`node.BurnRCD`), a fixed 32-byte
constant. -/
def BurnRCD : FAAddress := ⟨164⟩

/-- The burn registration loop of `ApplyFactoidBlock` (sync.go lines 405-434):
a transaction is collected as a burn when it has exactly one EC output, exactly
one FCT input, no FCT outputs, the EC output pays `BurnRCD`, and the EC output
amount is zero; the collected value is the FCT input. -/
def collectBurns : List FactoidTx → List FactoidTxIO
  | [] => []
  | t :: rest =>
    if t.ecOutputs.length ≠ 1 ∨ t.fctInputs.length ≠ 1 ∨ t.fctOutputs.length > 0 then
      collectBurns rest
    else
      match t.ecOutputs with
      | out :: _ =>
        if BurnRCD ≠ out.address then collectBurns rest
        else if out.amount ≠ 0 then collectBurns rest
        else
          match t.fctInputs with
          | inp :: _ => inp :: collectBurns rest
          | [] => collectBurns rest
      | [] => collectBurns rest

/-- The crediting loop of `ApplyFactoidBlock` (sync.go lines 442-448): each
burn input's address is byte-copied into an `factom.FAAddress` and credited
with the input amount of pFCT (`fat2.PTickerFCT`). -/
def creditBurns (s : Store) : List FactoidTxIO → Store
  | [] => s
  | b :: rest => creditBurns (addToBalance s ⟨b.address.id⟩ .FCT b.amount).2 rest

/-- `ApplyFactoidBlock` (sync.go lines 391-451), over the already-fetched
factoid transactions of the directory block. -/
def ApplyFactoidBlock (s : Store) (txs : List FactoidTx) : Store × Option PegErr :=
  (creditBurns s (collectBurns txs), none)

/-- One oracle winner of a graded block, restricted to what `SyncBlock` reads:
whether `factom.NewFAAddress` succeeds on its declared address, the parsed
address, its payout and its ordered rate vector
(`OPR.GetOrderedAssetsUint`). -/
structure Winner where
  addrOk : Bool
  addr : FAAddress
  payout : Nat
  rates : Rates
deriving DecidableEq, Repr

/-- A graded OPR block (`grader.GradedBlock`), opaque except for its winner
list. -/
structure GradedBlockM where
  winners : List Winner
deriving DecidableEq, Repr

/-- Modelled from the spec: `InsertGradeBlock` of the `pegnet` store package;
persists the grading artifacts for the height. -/
def insertGradeBlock (s : Store) (height : Nat) : Store :=
  { s with gradeBlocks := s.gradeBlocks ++ [height] }

/-- Modelled from the spec: `InsertRate(tx, height, rates)` of the `pegnet`
store package; records the rate epoch for the height. -/
def insertRate (s : Store) (height : Nat) (r : Rates) : Store :=
  { s with rates := s.rates ++ [(height, r)] }

/-- `ApplyGradedOPRBlock` (sync.go lines 455-475): pay each winner its PEG
payout, skipping winners whose declared address fails to parse. -/
def applyGradedOPRBlock (s : Store) : List Winner → Store
  | [] => s
  | w :: rest =>
    if w.addrOk = false then applyGradedOPRBlock s rest
    else applyGradedOPRBlock (addToBalance s w.addr .PEG w.payout).2 rest

/-- Everything `SyncBlock` learns about one directory block from the network:
whether a fetch failed, the graded OPR block (if the OPR chain had a block),
the parsed transaction-chain entries (if the transaction chain had a block),
the factoid transactions, and the transaction entry block's KeyMR. -/
structure BlockData where
  fetchFail : Bool
  gradedBlock : Option GradedBlockM
  txEntries : Option (List (Option TransactionBatch))
  fctTxs : List FactoidTx
  keyMR : Hash

/-- `SyncBlock` (sync.go lines 133-211): grade persistence and rate recording,
then the holding drain (only when grading produced winners), then the current
block's transaction chain, then the factoid burns, then the PEG rewards.  Any
error is returned to the caller, which rolls back the per-height
transaction. -/
def SyncBlock (s : Store) (bd : BlockData) (height : Nat) : Store × Option PegErr :=
  if bd.fetchFail then (s, some .fetchErr)
  else
    let s1 :=
      match bd.gradedBlock with
      | none => s
      | some g =>
        let sA := insertGradeBlock s height
        match g.winners with
        | w :: _ => insertRate sA height w.rates
        | [] => sA
    let p2 :=
      match bd.gradedBlock with
      | some g =>
        match g.winners with
        | _ :: _ => ApplyTransactionBatchesInHolding s1 height
        | [] => (s1, none)
      | none => (s1, none)
    match p2 with
    | (s2, some e) => (s2, some e)
    | (s2, none) =>
      let p3 :=
        match bd.txEntries with
        | some entries => ApplyTransactionBlock s2 entries height bd.keyMR
        | none => (s2, none)
      match p3 with
      | (s3, some e) => (s3, some e)
      | (s3, none) =>
        match ApplyFactoidBlock s3 bd.fctTxs with
        | (s4, some e) => (s4, some e)
        | (s4, none) =>
          match bd.gradedBlock with
          | some g => (applyGradedOPRBlock s4 g.winners, none)
          | none => (s4, none)

/-- Modelled from the spec: `InsertSynced(tx, sync)` of the `pegnet` store
package; writes the sync cursor record. -/
def insertSynced (s : Store) (h : Nat) : Store :=
  { s with syncedHeight := h }

/-- One iteration of the inner catch-up loop of `DBlockSync` (sync.go lines
53-124) at `cursor + 1`, returning the committed store and the in-memory
cursor afterwards.  On a `SyncBlock` error the transaction is rolled back and
the cursor is untouched; on success the cursor is bumped, `InsertSynced` runs
inside the same transaction, and the transaction commits; a failed
`InsertSynced` or a failed commit decrements the cursor back and rolls
back. -/
def syncIteration (persisted : Store) (cursor : Nat) (bd : BlockData)
    (insertSyncedOk commitOk : Bool) : Store × Nat :=
  match SyncBlock persisted bd (cursor + 1) with
  | (_, some _) => (persisted, cursor)
  | (s', none) =>
    if insertSyncedOk then
      let s'' := insertSynced s' (cursor + 1)
      if commitOk then (s'', cursor + 1)
      else (persisted, cursor)
    else (persisted, cursor)

/-- The claim's cross-chain burn condition, stated in its own words: exactly
one native-asset (FCT) input, exactly one entry-credit output, zero factoid
outputs, the entry-credit output pays `BurnRCD`, and the entry-credit output
amount is exactly `0`. -/
def isBurnSpec (t : FactoidTx) : Bool :=
  (t.fctInputs.length == 1) && (t.ecOutputs.length == 1) && (t.fctOutputs.length == 0) &&
  (match t.ecOutputs with
   | [o] => (o.address == BurnRCD) && (o.amount == 0)
   | _ => false)

/-- The single FCT input of a burn transaction. -/
def burnInputOf (t : FactoidTx) : FactoidTxIO := t.fctInputs.headD ⟨⟨0⟩, 0⟩

/-- A store for the C1 scenario: one conversion-bearing batch is in holding
(entered at height 2), the rate epoch at height 2 quotes USD at 4 and PEG at
1, and the input account holds `2 ^ 62` pUSD, so the conversion output
`2 ^ 62 * 4 / 1 = 2 ^ 64` overflows `int64` and `conversions.Convert` fails
with an error that is not `InsufficientBalanceErr`. -/
def c1batch : TransactionBatch :=
  { hash := ⟨11⟩
    transactions :=
      [{ input := { address := ⟨1⟩, ptype := .USD, amount := 2 ^ 62 }
         conversion := some .PEG
         transfers := [] }]
    valid := true }

def c1store : Store :=
  { balances := fun a _ => if a = ⟨1⟩ then 2 ^ 62 else 0
    relations := []
    holding := [⟨c1batch, 2, ⟨7⟩⟩]
    rates := [(2, [(.USD, 4), (.PEG, 1)])]
    gradeBlocks := []
    syncedHeight := 2 }

/-- A batch whose first transaction converts 10 pUSD to pXAU (quoted at rate
zero) and whose second transaction transfers 10 pUSD from the same account to
account 2. -/
def c3batch : TransactionBatch :=
  { hash := ⟨33⟩
    transactions :=
      [{ input := { address := ⟨1⟩, ptype := .USD, amount := 10 }
         conversion := some .XAU
         transfers := [] },
       { input := { address := ⟨1⟩, ptype := .USD, amount := 10 }
         conversion := none
         transfers := [{ address := ⟨2⟩, amount := 10 }] }]
    valid := true }

def c3rates : Rates := [(.USD, 5), (.XAU, 0)]

def c3store : Store :=
  { balances := fun a t => if a = ⟨1⟩ ∧ t = .USD then 100 else 0
    relations := []
    holding := []
    rates := []
    gradeBlocks := []
    syncedHeight := 0 }

/-- A batch whose first transaction transfers 10 pUSD from account 1 (funded)
to account 2 and whose second transaction debits account 3, which holds only
5 pUSD. -/
def c4batch : TransactionBatch :=
  { hash := ⟨44⟩
    transactions :=
      [{ input := { address := ⟨1⟩, ptype := .USD, amount := 10 }
         conversion := none
         transfers := [{ address := ⟨2⟩, amount := 10 }] },
       { input := { address := ⟨3⟩, ptype := .USD, amount := 10 }
         conversion := none
         transfers := [{ address := ⟨2⟩, amount := 10 }] }]
    valid := true }

def c4store : Store :=
  { balances := fun a _ => if a = ⟨1⟩ then 100 else if a = ⟨3⟩ then 5 else 0
    relations := []
    holding := []
    rates := []
    gradeBlocks := []
    syncedHeight := 0 }

/-- A held batch that debits account 3 (which holds only 5 pUSD) by 10. -/
def c5batch : TransactionBatch :=
  { hash := ⟨55⟩
    transactions :=
      [{ input := { address := ⟨3⟩, ptype := .USD, amount := 10 }
         conversion := none
         transfers := [{ address := ⟨2⟩, amount := 10 }] }]
    valid := true }

def c5store : Store :=
  { balances := fun a t => if a = ⟨3⟩ ∧ t = .USD then 5 else 0
    relations := []
    holding := [⟨c5batch, 2, ⟨7⟩⟩]
    rates := [(2, [(.USD, 4)])]
    gradeBlocks := []
    syncedHeight := 2 }

/-- The grading-persistence block of `SyncBlock` (sync.go lines 161-178),
as a standalone phase. -/
def gradePhase (bd : BlockData) (height : Nat) (s : Store) : Store :=
  match bd.gradedBlock with
  | none => s
  | some g =>
    let sA := insertGradeBlock s height
    match g.winners with
    | w :: _ => insertRate sA height w.rates
    | [] => sA

/-- The holding-drain step of `SyncBlock` (sync.go lines 183-187): runs only
when grading produced at least one winner. -/
def drainPhase (bd : BlockData) (height : Nat) (s : Store) : Store × Option PegErr :=
  match bd.gradedBlock with
  | some g =>
    match g.winners with
    | _ :: _ => ApplyTransactionBatchesInHolding s height
    | [] => (s, none)
  | none => (s, none)

/-- The current-block transaction step of `SyncBlock` (sync.go lines
190-194). -/
def txPhase (bd : BlockData) (height : Nat) (s : Store) : Store × Option PegErr :=
  match bd.txEntries with
  | some entries => ApplyTransactionBlock s entries height bd.keyMR
  | none => (s, none)

/-- The burn step of `SyncBlock` (sync.go line 199). -/
def burnPhase (bd : BlockData) (s : Store) : Store × Option PegErr :=
  ApplyFactoidBlock s bd.fctTxs

/-- The PEG-reward step of `SyncBlock` (sync.go lines 205-209). -/
def rewardPhase (bd : BlockData) (s : Store) : Store :=
  match bd.gradedBlock with
  | some g => applyGradedOPRBlock s g.winners
  | none => s

/-- Error-propagating sequencing of phases: a failed phase short-circuits the
rest of the block. -/
def andThen (p : Store × Option PegErr) (f : Store → Store × Option PegErr) :
    Store × Option PegErr :=
  match p with
  | (s, some e) => (s, some e)
  | (s, none) => f s

/-- The entered heights the drain at the given current height walks: the
half-open interval from the most recent rate height strictly before the
current height up to (excluding) the current height; empty when no prior rate
epoch exists. -/
def drainWindow (s : Store) (H : Nat) : List Nat :=
  match mostRecentRateHeightBefore s H with
  | none => []
  | some p => List.range' p (H - p)

/-- The held batches the drain at the given current height examines: for each
entered height of the window, the held batches at that height, in store
order. -/
def drainExamined (s : Store) (H : Nat) : List TransactionBatch :=
  (drainWindow s H).flatMap (selectHolding s)

/-- A conversion-bearing batch used as the C2 witness input. -/
def c2batch : TransactionBatch :=
  { hash := ⟨22⟩
    transactions :=
      [{ input := { address := ⟨1⟩, ptype := .USD, amount := 10 }
         conversion := some .PEG
         transfers := [] }]
    valid := true }

def c2store : Store :=
  { balances := fun _ _ => 0
    relations := []
    holding := []
    rates := []
    gradeBlocks := []
    syncedHeight := 0 }

/-- The single funded transfer transaction of the C8 witness batch. -/
def c8tx : Transaction :=
  { input := { address := ⟨1⟩, ptype := .USD, amount := 10 }
    conversion := none
    transfers := [{ address := ⟨2⟩, amount := 10 }] }

def c8batch : TransactionBatch :=
  { hash := ⟨88⟩
    transactions := [c8tx]
    valid := true }

def c8store : Store :=
  { balances := fun a t => if a = ⟨1⟩ ∧ t = .USD then 100 else 0
    relations := []
    holding := []
    rates := []
    gradeBlocks := []
    syncedHeight := 0 }

/-! ## Theorems -/

theorem collectBurns_eq_filter (txs : List FactoidTx) :
    collectBurns txs = (txs.filter isBurnSpec).map burnInputOf := by
  induction txs with
  | nil => rfl
  | cons t rest ih =>
    by_cases h1 : t.ecOutputs.length ≠ 1 ∨ t.fctInputs.length ≠ 1 ∨ t.fctOutputs.length > 0
    · have hspec : isBurnSpec t = false := by
        unfold isBurnSpec
        rcases h1 with h | h | h
        · have hb : (t.ecOutputs.length == 1) = false := by simpa using h
          simp [hb]
        · have hb : (t.fctInputs.length == 1) = false := by simpa using h
          simp [hb]
        · have hb : (t.fctOutputs.length == 0) = false := by
            simp only [beq_eq_false_iff_ne, ne_eq]
            omega
          simp [hb]
      rw [List.filter_cons_of_neg (by simp [hspec])]
      unfold collectBurns
      rw [if_pos h1, ih]
    · push_neg at h1
      obtain ⟨hec, hin, hout⟩ := h1
      obtain ⟨o, ho⟩ := List.length_eq_one.mp hec
      obtain ⟨inp, hi⟩ := List.length_eq_one.mp hin
      by_cases haddr : BurnRCD ≠ o.address
      · have hspec : isBurnSpec t = false := by
          unfold isBurnSpec
          simp only [ho]
          have hb : (o.address == BurnRCD) = false := by
            simp only [beq_eq_false_iff_ne, ne_eq]
            exact fun h => haddr h.symm
          simp [hb]
        rw [List.filter_cons_of_neg (by simp [hspec])]
        unfold collectBurns
        rw [if_neg (by push_neg; exact ⟨hec, hin, hout⟩)]
        simp only [ho]
        rw [if_pos haddr]
        exact ih
      · push_neg at haddr
        by_cases hamt : o.amount ≠ 0
        · have hspec : isBurnSpec t = false := by
            unfold isBurnSpec
            simp only [ho]
            have hb : (o.amount == 0) = false := by simpa using hamt
            simp [hb]
          rw [List.filter_cons_of_neg (by simp [hspec])]
          unfold collectBurns
          rw [if_neg (by push_neg; exact ⟨hec, hin, hout⟩)]
          simp only [ho]
          rw [if_neg (by simp [haddr]), if_pos hamt]
          exact ih
        · push_neg at hamt
          have hzero : t.fctOutputs.length = 0 := by omega
          have hspec : isBurnSpec t = true := by
            unfold isBurnSpec
            simp [ho, hi, haddr.symm, hamt, hzero]
          rw [List.filter_cons_of_pos (by simp [hspec])]
          unfold collectBurns
          rw [if_neg (by push_neg; exact ⟨hec, hin, hout⟩)]
          simp only [ho, hi]
          rw [if_neg (by simp [haddr]), if_neg (by simpa using hamt)]
          simp [burnInputOf, hi, ih]

/-- Claim C7: `ApplyFactoidBlock` credits a factoid transaction as a
cross-chain burn if and only if it has exactly one FCT input, exactly one
entry-credit output and zero factoid outputs, the entry-credit output pays the
`BurnRCD` sentinel, and the entry-credit output amount is exactly `0`; the
burns it credits are exactly the FCT inputs of the transactions satisfying the
claim's condition, each credited (address byte-copied) with its amount of
pFCT, and the block never fails. -/
theorem c7_factoid_burn_exact (s : Store) (txs : List FactoidTx) :
    collectBurns txs = (txs.filter isBurnSpec).map burnInputOf ∧
    ApplyFactoidBlock s txs =
      (creditBurns s ((txs.filter isBurnSpec).map burnInputOf), none) := by
  refine ⟨collectBurns_eq_filter txs, ?_⟩
  unfold ApplyFactoidBlock
  rw [collectBurns_eq_filter]

/-- Claim C1 (code bug): applying the held batch fails with a
`conversions.Convert` error — not `InsufficientBalanceErr` — yet
`ApplyTransactionBatchesInHolding` returns success instead of propagating the
error (the `return nil` of sync.go line 283), leaving the batch's partial
debit in the per-height transaction, which therefore commits instead of being
rolled back and retried. -/
theorem c1_holding_drain_swallows_error :
    (applyTransactionBatch c1store c1batch (selectPendingRates c1store 3) 3).2
        = some .convertErr ∧
    (ApplyTransactionBatchesInHolding c1store 3).2 = none ∧
    (ApplyTransactionBatchesInHolding c1store 3).1.balances ⟨1⟩ .USD = 0 ∧
    c1store.balances ⟨1⟩ .USD = 2 ^ 62 := by
  refine ⟨by decide, by decide, by decide, by decide⟩

/-- Claim C3 counterexample: with a zero target rate on the first transaction,
the batch application reports success and retains the input debit with no
credit, but the remaining (second) transaction of the batch is NOT applied:
account 2 receives nothing and only the first transaction's input relation row
exists — refuting the claim that the remaining transactions of the same batch
are still applied. -/
theorem c3_zero_rate_counterexample :
    (applyTransactionBatch c3store c3batch (some c3rates) 5).2 = none ∧
    (applyTransactionBatch c3store c3batch (some c3rates) 5).1.balances ⟨1⟩ .USD = 90 ∧
    (applyTransactionBatch c3store c3batch (some c3rates) 5).1.balances ⟨1⟩ .XAU = 0 ∧
    (applyTransactionBatch c3store c3batch (some c3rates) 5).1.balances ⟨2⟩ .USD = 0 ∧
    (applyTransactionBatch c3store c3batch (some c3rates) 5).1.relations.length = 1 := by
  refine ⟨by decide, by decide, by decide, by decide, by decide⟩

/-- Claim C3 as amended: when a conversion transaction's input rate or target
rate is zero, the transaction is dropped as zero-output — its input debit and
input relation row are retained (the value is burned) and no credit is made —
and the batch's application ends right there reporting success: the remaining
transactions of the same batch are not applied, while mutations from earlier
transactions of the batch are kept. -/
theorem c3_zero_rate_amended (s : Store) (h : Hash) (i : Nat) (r : Rates)
    (tx : Transaction) (rest : List Transaction) (conv : PTicker)
    (hconv : tx.conversion = some conv)
    (hr : r.isEmpty = false)
    (hzero : ratesGet r tx.input.ptype = 0 ∨ ratesGet r conv = 0)
    (hbal : tx.input.amount ≤ s.balances tx.input.address tx.input.ptype) :
    applyTxList s h i (some r) (tx :: rest) =
      (insertTransactionRelation
        (subFromBalance s tx.input.address tx.input.ptype tx.input.amount).2.2
        (addrIdOf tx.input.address) h i false true, none) := by
  have hsub : subFromBalance s tx.input.address tx.input.ptype tx.input.amount =
      (addrIdOf tx.input.address, none,
        (subFromBalance s tx.input.address tx.input.ptype tx.input.amount).2.2) := by
    unfold subFromBalance
    rw [if_neg (by omega)]
  have hic : txIsConversion tx = true := by
    unfold txIsConversion
    rw [hconv]
    rfl
  unfold applyTxList
  rw [hsub]
  simp only [hconv, hic]
  have hne : ratesNilOrEmpty (some r) = false := hr
  rw [hne]
  simp only [Bool.false_eq_true, if_false, Option.getD]
  rw [if_pos hzero]

/-- Witness for the amended C3 claim at the concrete counterexample input. -/
theorem c3_zero_rate_amended_witness :
    applyTxList c3store (⟨33⟩ : Hash) 0 (some c3rates) c3batch.transactions =
      (insertTransactionRelation
        (subFromBalance c3store ⟨1⟩ .USD 10).2.2 (addrIdOf ⟨1⟩) ⟨33⟩ 0 false true, none) :=
  c3_zero_rate_amended c3store ⟨33⟩ 0 c3rates _ _ .XAU (by decide) (by decide)
    (by decide) (by decide)

/-- Claim C4 counterexample: the second transaction of the batch fails its
debit with `InsufficientBalance`, yet the first transaction's balance changes
and relation rows remain visible in the enclosing (not-rolled-back)
transaction — refuting the claim that no mutation from the batch is
visible. -/
theorem c4_insufficient_balance_counterexample :
    (applyTransactionBatch c4store c4batch none 5).2 = some .insufficientBalance ∧
    (applyTransactionBatch c4store c4batch none 5).1.balances ⟨1⟩ .USD = 90 ∧
    (applyTransactionBatch c4store c4batch none 5).1.balances ⟨2⟩ .USD = 10 ∧
    (applyTransactionBatch c4store c4batch none 5).1.relations.length = 2 ∧
    c4store.balances ⟨1⟩ .USD = 100 ∧ c4store.relations.length = 0 := by
  refine ⟨by decide, by decide, by decide, by decide, by decide, by decide⟩

/-- Claim C4 as amended: a transaction failing its debit with
`InsufficientBalance` aborts the batch's application at that transaction — the
failing transaction and all later transactions of the batch make no mutation
and insert no rows — but mutations already made by earlier transactions of the
same batch remain visible; the enclosing block continues with the remaining
batches from that partial state, and `InsufficientBalance` never propagates
out of the transaction block (so the block commits normally). -/
theorem c4_insufficient_balance_amended :
    (∀ (s : Store) (h : Hash) (i : Nat) (rates : Option Rates) (tx : Transaction)
        (rest : List Transaction),
      s.balances tx.input.address tx.input.ptype < tx.input.amount →
      applyTxList s h i rates (tx :: rest) = (s, some .insufficientBalance)) ∧
    (∀ (s : Store) (b : TransactionBatch) (rest : List (Option TransactionBatch))
        (height : Nat) (k : Hash),
      b.valid = true → isReplayTransaction s b.hash = false → hasConversions b = false →
      (applyTransactionBatch s b none height).2 = some .insufficientBalance →
      ApplyTransactionBlock s (some b :: rest) height k =
        ApplyTransactionBlock (applyTransactionBatch s b none height).1 rest height k) ∧
    (∀ (s : Store) (entries : List (Option TransactionBatch)) (height : Nat) (k : Hash)
        (e : PegErr),
      (ApplyTransactionBlock s entries height k).2 = some e → e ≠ .insufficientBalance) := by
  refine ⟨?_, ?_, ?_⟩
  · intro s h i rates tx rest hlt
    unfold applyTxList subFromBalance
    rw [if_pos hlt]
  · intro s b rest height k hv hr hc hib
    rcases hab : applyTransactionBatch s b none height with ⟨s', e'⟩
    rw [hab] at hib
    simp only at hib
    subst hib
    conv_lhs => unfold ApplyTransactionBlock
    simp [hv, hr, hc, hab]
  · intro s entries height k e
    induction entries generalizing s with
    | nil =>
      intro h
      simp [ApplyTransactionBlock] at h
    | cons ent rest ih =>
      match ent with
      | none =>
        intro h
        exact ih s (by simpa [ApplyTransactionBlock] using h)
      | some b =>
        intro h
        by_cases hv : b.valid = false
        · exact ih s (by simpa [ApplyTransactionBlock, hv] using h)
        · by_cases hr : isReplayTransaction s b.hash = true
          · exact ih s (by simpa [ApplyTransactionBlock, hv, hr] using h)
          · by_cases hc : hasConversions b = true
            · refine ih (insertTransactionBatchHolding s b height k) ?_
              simpa [ApplyTransactionBlock, hv, hr, hc] using h
            · rcases hab : applyTransactionBatch s b none height with ⟨s', e'⟩
              match e' with
              | none =>
                refine ih s' ?_
                simpa [ApplyTransactionBlock, hv, hr, hc, hab] using h
              | some err =>
                by_cases herr : err = .insufficientBalance
                · subst herr
                  refine ih s' ?_
                  simpa [ApplyTransactionBlock, hv, hr, hc, hab] using h
                · have h2 : some err = some e := by
                    simpa [ApplyTransactionBlock, hv, hr, hc, hab, herr] using h
                  injection h2 with h3
                  rw [← h3]
                  exact herr

/-- Witness for the amended C4 claim: the failing debit of the concrete
counterexample batch's second transaction, applied on its own, mutates nothing
and aborts with `InsufficientBalance`. -/
theorem c4_insufficient_balance_amended_witness :
    applyTxList c4store (⟨44⟩ : Hash) 1 none
        [{ input := { address := ⟨3⟩, ptype := .USD, amount := 10 }
           conversion := none
           transfers := [{ address := ⟨2⟩, amount := 10 }] }] =
      (c4store, some .insufficientBalance) :=
  c4_insufficient_balance_amended.1 c4store ⟨44⟩ 1 none _ [] (by decide)

/-- Claim C5: during the holding drain, a held batch whose application fails
with `InsufficientBalance` is simply dropped — the inner loop continues with
the remaining held batches of the current window, from the state the failed
application left behind. -/
theorem c5_drain_continues_after_insufficient_balance (s : Store) (rates : Option Rates)
    (H : Nat) (b : TransactionBatch) (rest : List TransactionBatch)
    (hv : b.valid = true) (hr : isReplayTransaction s b.hash = false)
    (hib : (applyTransactionBatch s b rates H).2 = some .insufficientBalance) :
    drainBatches s rates H (b :: rest) =
      drainBatches (applyTransactionBatch s b rates H).1 rates H rest := by
  rcases hab : applyTransactionBatch s b rates H with ⟨s', e'⟩
  rw [hab] at hib
  simp only at hib
  subst hib
  conv_lhs => unfold drainBatches
  simp [hv, hr, hab]

/-- Witness for C5 at a concrete input: the underfunded held batch is dropped
and the inner drain loop continues with the remaining batches. -/
theorem c5_drain_continues_witness :
    drainBatches c5store (some [(.USD, 4)]) 3 (c5batch :: []) =
      drainBatches (applyTransactionBatch c5store c5batch (some [(.USD, 4)]) 3).1
        (some [(.USD, 4)]) 3 [] :=
  c5_drain_continues_after_insufficient_balance c5store (some [(.USD, 4)]) 3 c5batch []
    (by decide) (by decide) (by decide)

/-- Claim C9: on a successful `SyncBlock` the in-memory cursor is bumped by
exactly one and persisted through `InsertSynced` inside the same per-height
transaction before the commit, so the persisted `syncedHeight` after the
commit is strictly greater than before; on any failure — a `SyncBlock` error,
an `InsertSynced` error, or a commit error — the transaction is rolled back
and both the persisted store and the in-memory cursor keep their prior
values. -/
theorem c9_cursor_monotonic (persisted : Store) (cursor : Nat) (bd : BlockData)
    (iOk cOk : Bool) :
    ((SyncBlock persisted bd (cursor + 1)).2 = none → iOk = true → cOk = true →
      syncIteration persisted cursor bd iOk cOk =
        (insertSynced (SyncBlock persisted bd (cursor + 1)).1 (cursor + 1), cursor + 1) ∧
      (syncIteration persisted cursor bd iOk cOk).1.syncedHeight = cursor + 1) ∧
    (persisted.syncedHeight = cursor → (SyncBlock persisted bd (cursor + 1)).2 = none →
      iOk = true → cOk = true →
      persisted.syncedHeight < (syncIteration persisted cursor bd iOk cOk).1.syncedHeight) ∧
    ((SyncBlock persisted bd (cursor + 1)).2 ≠ none ∨ iOk = false ∨ cOk = false →
      syncIteration persisted cursor bd iOk cOk = (persisted, cursor)) := by
  have hstep : (SyncBlock persisted bd (cursor + 1)).2 = none →
      syncIteration persisted cursor bd true true =
        (insertSynced (SyncBlock persisted bd (cursor + 1)).1 (cursor + 1), cursor + 1) := by
    intro he
    unfold syncIteration
    rcases hsb : SyncBlock persisted bd (cursor + 1) with ⟨s', e⟩
    rw [hsb] at he
    simp only at he
    subst he
    simp
  refine ⟨?_, ?_, ?_⟩
  · intro he hi hc
    subst hi
    subst hc
    refine ⟨hstep he, ?_⟩
    rw [hstep he]
    rfl
  · intro hcur he hi hc
    subst hi
    subst hc
    rw [hstep he, hcur]
    exact Nat.lt_succ_self cursor
  · intro hfail
    unfold syncIteration
    rcases hsb : SyncBlock persisted bd (cursor + 1) with ⟨s', e⟩
    rw [hsb] at hfail
    simp only at hfail
    match e with
    | some err => simp
    | none =>
      rcases hfail with he | hi | hc
      · exact absurd rfl he
      · subst hi
        simp
      · subst hc
        simp

/-- Witness for C9 at a concrete input: an empty block at height 1 over an
empty store commits and moves the persisted cursor from 0 to 1, and with a
failed commit everything keeps its prior value. -/
theorem c9_cursor_monotonic_witness :
    (syncIteration
        { balances := fun _ _ => 0, relations := [], holding := [], rates := [],
          gradeBlocks := [], syncedHeight := 0 } 0
        { fetchFail := false, gradedBlock := none, txEntries := none, fctTxs := [],
          keyMR := ⟨0⟩ } true true).1.syncedHeight = 1 ∧
    syncIteration
        { balances := fun _ _ => 0, relations := [], holding := [], rates := [],
          gradeBlocks := [], syncedHeight := 0 } 0
        { fetchFail := false, gradedBlock := none, txEntries := none, fctTxs := [],
          keyMR := ⟨0⟩ } true false =
      ({ balances := fun _ _ => 0, relations := [], holding := [], rates := [],
          gradeBlocks := [], syncedHeight := 0 }, 0) :=
  ⟨((c9_cursor_monotonic _ 0 _ true true).1 (by decide) rfl rfl).2,
   (c9_cursor_monotonic _ 0 _ true false).2.2 (Or.inr (Or.inr rfl))⟩

theorem applyTransfers_inv (h : Hash) (i : Nat) (t : PTicker)
    (l : List Transfer) (s : Store) :
    (applyTransfers s h i t l).holding = s.holding ∧
    (applyTransfers s h i t l).rates = s.rates ∧
    ∃ r, (applyTransfers s h i t l).relations = s.relations ++ r := by
  induction l generalizing s with
  | nil => exact ⟨rfl, rfl, [], by simp [applyTransfers]⟩
  | cons tr rest ih =>
    obtain ⟨h1, h2, r, h3⟩ :=
      ih (insertTransactionRelation (addToBalance s tr.address t tr.amount).2
        (addToBalance s tr.address t tr.amount).1 h i true false)
    refine ⟨h1, h2, ⟨tr.address.id, h, i, true, false⟩ :: r, ?_⟩
    rw [show applyTransfers s h i t (tr :: rest) =
        applyTransfers (insertTransactionRelation (addToBalance s tr.address t tr.amount).2
          (addToBalance s tr.address t tr.amount).1 h i true false) h i t rest from rfl, h3]
    simp [insertTransactionRelation, addToBalance, addrIdOf]

theorem applyTxList_inv (h : Hash) (rates : Option Rates) (l : List Transaction) :
    ∀ (i : Nat) (s : Store),
    ((applyTxList s h i rates l).1).holding = s.holding ∧
    ((applyTxList s h i rates l).1).rates = s.rates ∧
    ∃ r, ((applyTxList s h i rates l).1).relations = s.relations ++ r := by
  induction l with
  | nil =>
    intro i s
    exact ⟨rfl, rfl, [], by simp [applyTxList]⟩
  | cons tx rest ih =>
    intro i s
    have step : ∀ (S : Store), S.holding = s.holding → S.rates = s.rates →
        (∃ l0, S.relations = s.relations ++ l0) →
        ((applyTxList S h (i + 1) rates rest).1).holding = s.holding ∧
        ((applyTxList S h (i + 1) rates rest).1).rates = s.rates ∧
        ∃ r, ((applyTxList S h (i + 1) rates rest).1).relations = s.relations ++ r := by
      intro S hh hr ⟨l0, hrel⟩
      obtain ⟨h1, h2, r, h3⟩ := ih (i + 1) S
      exact ⟨h1.trans hh, h2.trans hr, l0 ++ r,
        by rw [h3, hrel, List.append_assoc]⟩
    unfold applyTxList
    split
    next aid txErr s1 heq =>
      unfold subFromBalance at heq
      split at heq
      · simp only [Prod.mk.injEq] at heq
        obtain ⟨-, -, hs⟩ := heq
        subst hs
        exact ⟨rfl, rfl, [], by simp⟩
      · simp only [Prod.mk.injEq] at heq
        exact absurd heq.2.1 (by simp)
    next aid s1 heq =>
      unfold subFromBalance at heq
      split at heq
      · simp only [Prod.mk.injEq] at heq
        exact absurd heq.2.1 (by simp)
      · simp only [Prod.mk.injEq] at heq
        obtain ⟨ha, -, hs⟩ := heq
        subst hs
        subst ha
        dsimp only
        split
        next conv hc =>
          split
          · exact ⟨rfl, rfl, [⟨addrIdOf tx.input.address, h, i, false, txIsConversion tx⟩],
              by simp [insertTransactionRelation]⟩
          · split
            · exact ⟨rfl, rfl, [⟨addrIdOf tx.input.address, h, i, false, txIsConversion tx⟩],
                by simp [insertTransactionRelation]⟩
            · split
              · exact ⟨rfl, rfl,
                  [⟨addrIdOf tx.input.address, h, i, false, txIsConversion tx⟩],
                  by simp [insertTransactionRelation]⟩
              · exact step _ rfl rfl
                  ⟨[⟨addrIdOf tx.input.address, h, i, false, txIsConversion tx⟩],
                    by simp [insertTransactionRelation, addToBalance]⟩
        next hc =>
          refine step _ ?_ ?_ ?_
          · exact (applyTransfers_inv h i tx.input.ptype tx.transfers _).1
          · exact (applyTransfers_inv h i tx.input.ptype tx.transfers _).2.1
          · obtain ⟨tr, t3⟩ := (applyTransfers_inv h i tx.input.ptype tx.transfers
              (insertTransactionRelation
                { s with balances := (updBal s.balances tx.input.address tx.input.ptype
                    (s.balances tx.input.address tx.input.ptype - tx.input.amount)) }
                (addrIdOf tx.input.address) h i false (txIsConversion tx))).2.2
            exact ⟨[⟨addrIdOf tx.input.address, h, i, false, txIsConversion tx⟩] ++ tr,
              t3.trans (by simp [insertTransactionRelation])⟩

theorem applyTransactionBatch_inv (s : Store) (b : TransactionBatch)
    (rates : Option Rates) (H : Nat) :
    ((applyTransactionBatch s b rates H).1).holding = s.holding ∧
    ((applyTransactionBatch s b rates H).1).rates = s.rates ∧
    ∃ r, ((applyTransactionBatch s b rates H).1).relations = s.relations ++ r :=
  applyTxList_inv b.hash rates b.transactions 0 s

theorem drainBatches_inv (rates : Option Rates) (H : Nat) (bs : List TransactionBatch) :
    ∀ s : Store,
    ((drainBatches s rates H bs).1).holding = s.holding ∧
    ((drainBatches s rates H bs).1).rates = s.rates ∧
    ∃ r, ((drainBatches s rates H bs).1).relations = s.relations ++ r := by
  induction bs with
  | nil =>
    intro s
    exact ⟨rfl, rfl, [], by simp [drainBatches]⟩
  | cons b rest ih =>
    intro s
    have chain : ∀ s' : Store, applyTransactionBatch s b rates H = (s', (applyTransactionBatch s b rates H).2) →
        ((drainBatches s' rates H rest).1).holding = s.holding ∧
        ((drainBatches s' rates H rest).1).rates = s.rates ∧
        ∃ r, ((drainBatches s' rates H rest).1).relations = s.relations ++ r := by
      intro s' heq
      have hfst : (applyTransactionBatch s b rates H).1 = s' := by rw [heq]
      obtain ⟨a1, a2, ar, a3⟩ := applyTransactionBatch_inv s b rates H
      rw [hfst] at a1 a2 a3
      obtain ⟨h1, h2, r, h3⟩ := ih s'
      exact ⟨h1.trans a1, h2.trans a2, ar ++ r,
        by rw [h3, a3, List.append_assoc]⟩
    unfold drainBatches
    split
    · exact ih s
    · split
      · exact ih s
      · split
        next s' err heq =>
          have hfst : (applyTransactionBatch s b rates H).1 = s' := by rw [heq]
          split
          · exact chain s' (by rw [heq])
          · obtain ⟨a1, a2, ar, a3⟩ := applyTransactionBatch_inv s b rates H
            rw [hfst] at a1 a2 a3
            exact ⟨a1, a2, ar, a3⟩
        next s' heq =>
          exact chain s' (by rw [heq])

theorem drainHeights_inv (rates : Option Rates) (H : Nat) (hs : List Nat) :
    ∀ s : Store,
    ((drainHeights s rates H hs).1).holding = s.holding ∧
    ((drainHeights s rates H hs).1).rates = s.rates ∧
    ∃ r, ((drainHeights s rates H hs).1).relations = s.relations ++ r := by
  induction hs with
  | nil =>
    intro s
    exact ⟨rfl, rfl, [], by simp [drainHeights]⟩
  | cons i rest ih =>
    intro s
    unfold drainHeights
    split
    next s' heq =>
      have hfst : (drainBatches s rates H (selectHolding s i)).1 = s' := by rw [heq]
      obtain ⟨a1, a2, ar, a3⟩ := drainBatches_inv rates H (selectHolding s i) s
      rw [hfst] at a1 a2 a3
      exact ⟨a1, a2, ar, a3⟩
    next s' heq =>
      have hfst : (drainBatches s rates H (selectHolding s i)).1 = s' := by rw [heq]
      obtain ⟨a1, a2, ar, a3⟩ := drainBatches_inv rates H (selectHolding s i) s
      rw [hfst] at a1 a2 a3
      obtain ⟨h1, h2, r, h3⟩ := ih s'
      exact ⟨h1.trans a1, h2.trans a2, ar ++ r, by rw [h3, a3, List.append_assoc]⟩

theorem applyHolding_inv (s : Store) (H : Nat) :
    ((ApplyTransactionBatchesInHolding s H).1).holding = s.holding ∧
    ((ApplyTransactionBatchesInHolding s H).1).rates = s.rates ∧
    ∃ r, ((ApplyTransactionBatchesInHolding s H).1).relations = s.relations ++ r := by
  unfold ApplyTransactionBatchesInHolding
  split
  · exact ⟨rfl, rfl, [], by simp⟩
  · exact drainHeights_inv _ _ _ s

theorem applyTransactionBlock_inv (height : Nat) (k : Hash)
    (entries : List (Option TransactionBatch)) :
    ∀ s : Store,
    ((ApplyTransactionBlock s entries height k).1).rates = s.rates ∧
    (∃ hl, ((ApplyTransactionBlock s entries height k).1).holding = s.holding ++ hl) ∧
    ∃ r, ((ApplyTransactionBlock s entries height k).1).relations = s.relations ++ r := by
  induction entries with
  | nil =>
    intro s
    exact ⟨rfl, ⟨[], by simp [ApplyTransactionBlock]⟩, [], by simp [ApplyTransactionBlock]⟩
  | cons ent rest ih =>
    intro s
    match ent with
    | none =>
      have := ih s
      simpa [ApplyTransactionBlock] using this
    | some b =>
      unfold ApplyTransactionBlock
      split
      · exact ih s
      · split
        · exact ih s
        · split
          · obtain ⟨h1, ⟨hl, h2⟩, r, h3⟩ := ih (insertTransactionBatchHolding s b height k)
            refine ⟨h1, ⟨⟨b, height, k⟩ :: hl, ?_⟩, r, ?_⟩
            · rw [h2]
              simp [insertTransactionBatchHolding]
            · rw [h3]
              simp [insertTransactionBatchHolding]
          · split
            next s' err heq =>
              have hfst : (applyTransactionBatch s b none height).1 = s' := by rw [heq]
              obtain ⟨a1, a2, ar, a3⟩ := applyTransactionBatch_inv s b none height
              rw [hfst] at a1 a2 a3
              split
              · obtain ⟨h1, ⟨hl, h2⟩, r, h3⟩ := ih s'
                exact ⟨h1.trans a2, ⟨hl, by rw [h2, a1]⟩, ar ++ r,
                  by rw [h3, a3, List.append_assoc]⟩
              · exact ⟨a2, ⟨[], by rw [a1]; simp⟩, ar, a3⟩
            next s' heq =>
              have hfst : (applyTransactionBatch s b none height).1 = s' := by rw [heq]
              obtain ⟨a1, a2, ar, a3⟩ := applyTransactionBatch_inv s b none height
              rw [hfst] at a1 a2 a3
              obtain ⟨h1, ⟨hl, h2⟩, r, h3⟩ := ih s'
              exact ⟨h1.trans a2, ⟨hl, by rw [h2, a1]⟩, ar ++ r,
                by rw [h3, a3, List.append_assoc]⟩

theorem creditBurns_inv (l : List FactoidTxIO) : ∀ s : Store,
    (creditBurns s l).rates = s.rates ∧ (creditBurns s l).holding = s.holding ∧
    (creditBurns s l).relations = s.relations := by
  induction l with
  | nil => exact fun s => ⟨rfl, rfl, rfl⟩
  | cons b rest ih =>
    intro s
    obtain ⟨h1, h2, h3⟩ := ih (addToBalance s ⟨b.address.id⟩ .FCT b.amount).2
    exact ⟨h1, h2, h3⟩

theorem applyGradedOPRBlock_inv (l : List Winner) : ∀ s : Store,
    (applyGradedOPRBlock s l).rates = s.rates ∧
    (applyGradedOPRBlock s l).holding = s.holding ∧
    (applyGradedOPRBlock s l).relations = s.relations := by
  induction l with
  | nil => exact fun s => ⟨rfl, rfl, rfl⟩
  | cons w rest ih =>
    intro s
    unfold applyGradedOPRBlock
    split
    · exact ih s
    · obtain ⟨h1, h2, h3⟩ := ih (addToBalance s w.addr .PEG w.payout).2
      exact ⟨h1, h2, h3⟩

theorem syncBlock_decomp (s : Store) (bd : BlockData) (height : Nat)
    (hf : bd.fetchFail = false) :
    SyncBlock s bd height =
      andThen (drainPhase bd height (gradePhase bd height s)) (fun s2 =>
        andThen (txPhase bd height s2) (fun s3 =>
          andThen (burnPhase bd s3) (fun s4 => (rewardPhase bd s4, none)))) := by
  unfold SyncBlock gradePhase drainPhase txPhase burnPhase rewardPhase andThen
  rw [hf]
  simp only [Bool.false_eq_true, if_false]
  rcases hg : bd.gradedBlock with _ | g
  · rcases he : bd.txEntries with _ | entries
    · rfl
    · rcases hb : ApplyTransactionBlock s entries height bd.keyMR with ⟨s3, e3⟩
      cases e3 <;> rfl
  · rcases hw : g.winners with _ | ⟨w, ws⟩
    · rcases he : bd.txEntries with _ | entries
      · simp [hw]
      · rcases hb : ApplyTransactionBlock (insertGradeBlock s height) entries height bd.keyMR
          with ⟨s3, e3⟩
        cases e3 <;> simp [hw, hb]
    · rcases hp : ApplyTransactionBatchesInHolding
        (insertRate (insertGradeBlock s height) height w.rates) height with ⟨s2, e2⟩
      cases e2 with
      | some e => simp [hw, hp]
      | none =>
        rcases he : bd.txEntries with _ | entries
        · simp [hw, hp]
        · rcases hb : ApplyTransactionBlock s2 entries height bd.keyMR with ⟨s3, e3⟩
          cases e3 <;> simp [hw, hp, hb]

theorem andThen_rates (p : Store × Option PegErr) (f : Store → Store × Option PegErr)
    (hf : ∀ st, ((f st).1).rates = st.rates) :
    ((andThen p f).1).rates = (p.1).rates := by
  rcases p with ⟨st, e⟩
  cases e
  · exact hf st
  · rfl

theorem rewardPhase_rates (bd : BlockData) (st : Store) :
    (rewardPhase bd st).rates = st.rates := by
  unfold rewardPhase
  rcases bd.gradedBlock with _ | g
  · rfl
  · exact (applyGradedOPRBlock_inv g.winners st).1

theorem burnPhase_rates (bd : BlockData) (st : Store) :
    ((burnPhase bd st).1).rates = st.rates := by
  unfold burnPhase ApplyFactoidBlock
  exact (creditBurns_inv (collectBurns bd.fctTxs) st).1

theorem txPhase_rates (bd : BlockData) (height : Nat) (st : Store) :
    ((txPhase bd height st).1).rates = st.rates := by
  unfold txPhase
  rcases bd.txEntries with _ | entries
  · rfl
  · exact (applyTransactionBlock_inv height bd.keyMR entries st).1

theorem drainPhase_rates (bd : BlockData) (height : Nat) (st : Store) :
    ((drainPhase bd height st).1).rates = st.rates := by
  unfold drainPhase
  rcases bd.gradedBlock with _ | g
  · rfl
  · rcases hw : g.winners with _ | ⟨w, ws⟩
    · simp [hw]
    · simp only [hw]
      exact (applyHolding_inv st height).2.1

/-- Claim C6: within `SyncBlock` the application phases run in the fixed order
grading persistence → holding drain → current-block transactions → burns →
PEG rewards (the pipeline factors as their sequential error-propagating
composition); a rate epoch for the height is recorded exactly when grading
produced at least one winner, and then it is the first winner's rate vector
that is persisted; and the holding drain phase is the identity on heights
whose grading produced no winners (or no graded block), leaving the holding
queue untouched there. -/
theorem c6_syncblock_phase_order (s : Store) (bd : BlockData) (height : Nat)
    (hf : bd.fetchFail = false) :
    (SyncBlock s bd height =
      andThen (drainPhase bd height (gradePhase bd height s)) (fun s2 =>
        andThen (txPhase bd height s2) (fun s3 =>
          andThen (burnPhase bd s3) (fun s4 => (rewardPhase bd s4, none))))) ∧
    ((SyncBlock s bd height).1.rates =
      (match bd.gradedBlock with
       | some g =>
         match g.winners with
         | w :: _ => s.rates ++ [(height, w.rates)]
         | [] => s.rates
       | none => s.rates)) ∧
    (∀ g, bd.gradedBlock = some g → g.winners = [] →
      ∀ st : Store, drainPhase bd height st = (st, none)) ∧
    (bd.gradedBlock = none → ∀ st : Store, drainPhase bd height st = (st, none)) := by
  have hdec := syncBlock_decomp s bd height hf
  have htail : ∀ st : Store,
      ((andThen (txPhase bd height st) (fun s3 =>
        andThen (burnPhase bd s3) (fun s4 => (rewardPhase bd s4, none)))).1).rates
        = st.rates := by
    intro st
    have hinner : ∀ s3 : Store,
        ((andThen (burnPhase bd s3) (fun s4 => (rewardPhase bd s4, none))).1).rates
          = s3.rates := by
      intro s3
      have := andThen_rates (burnPhase bd s3) (fun s4 => (rewardPhase bd s4, none))
        (fun s4 => rewardPhase_rates bd s4)
      exact this.trans (burnPhase_rates bd s3)
    have := andThen_rates (txPhase bd height st) _ hinner
    exact this.trans (txPhase_rates bd height st)
  have hgrade : (gradePhase bd height s).rates =
      (match bd.gradedBlock with
       | some g =>
         match g.winners with
         | w :: _ => s.rates ++ [(height, w.rates)]
         | [] => s.rates
       | none => s.rates) := by
    unfold gradePhase
    rcases bd.gradedBlock with _ | g
    · rfl
    · rcases hw : g.winners with _ | ⟨w, ws⟩ <;>
        simp [hw, insertRate, insertGradeBlock]
  refine ⟨hdec, ?_, ?_, ?_⟩
  · rw [hdec]
    have := andThen_rates (drainPhase bd height (gradePhase bd height s)) _ htail
    rw [this, drainPhase_rates, hgrade]
  · intro g hg hw st
    unfold drainPhase
    rw [hg]
    simp [hw]
  · intro hg st
    unfold drainPhase
    rw [hg]

/-- Witness for C6 at a concrete input: a block whose grading produced a single
winner quoting USD at 4 records exactly that rate epoch at height 5 when
synced over an empty store. -/
theorem c6_syncblock_phase_order_witness :
    (SyncBlock
      { balances := fun _ _ => 0, relations := [], holding := [], rates := [],
        gradeBlocks := [], syncedHeight := 0 }
      { fetchFail := false
        gradedBlock := some { winners := [⟨true, ⟨9⟩, 200, [(.USD, 4)]⟩] }
        txEntries := none, fctTxs := [], keyMR := ⟨0⟩ } 5).1.rates = [(5, [(.USD, 4)])] :=
  (c6_syncblock_phase_order
    { balances := fun _ _ => 0, relations := [], holding := [], rates := [],
      gradeBlocks := [], syncedHeight := 0 }
    { fetchFail := false
      gradedBlock := some { winners := [⟨true, ⟨9⟩, 200, [(.USD, 4)]⟩] }
      txEntries := none, fctTxs := [], keyMR := ⟨0⟩ } 5 rfl).2.1

theorem maxBelow_none (bound : Nat) (l : List Nat) :
    maxBelow bound l = none → ∀ r ∈ l, ¬ r < bound := by
  induction l with
  | nil => intro _ r hr; simp at hr
  | cons a rest ih =>
    intro hp r hr
    unfold maxBelow at hp
    rcases hm : maxBelow bound rest with _ | m
    · rw [hm] at hp
      dsimp only at hp
      by_cases ha : a < bound
      · rw [if_pos ha] at hp
        exact absurd hp (by simp)
      · rw [if_neg ha] at hp
        rcases List.mem_cons.mp hr with rfl | hr
        · exact ha
        · exact ih hm r hr
    · rw [hm] at hp
      dsimp only at hp
      by_cases ha : a < bound
      · rw [if_pos ha] at hp
        exact absurd hp (by simp)
      · rw [if_neg ha] at hp
        exact absurd hp (by simp)

theorem maxBelow_spec (bound : Nat) (l : List Nat) :
    ∀ p, maxBelow bound l = some p →
      p ∈ l ∧ p < bound ∧ ∀ r ∈ l, r < bound → r ≤ p := by
  induction l with
  | nil => intro p hp; simp [maxBelow] at hp
  | cons a rest ih =>
    intro p hp
    unfold maxBelow at hp
    rcases hm : maxBelow bound rest with _ | m
    · rw [hm] at hp
      dsimp only at hp
      by_cases ha : a < bound
      · rw [if_pos ha] at hp
        injection hp with hp
        subst hp
        refine ⟨List.mem_cons_self a rest, ha, ?_⟩
        intro r hr hrb
        rcases List.mem_cons.mp hr with rfl | hr
        · exact Nat.le_refl r
        · exact absurd hrb ((maxBelow_none bound rest hm) r hr)
      · rw [if_neg ha] at hp
        exact absurd hp (by simp)
    · rw [hm] at hp
      dsimp only at hp
      obtain ⟨hmem, hmlt, hmax⟩ := ih m hm
      by_cases ha : a < bound
      · rw [if_pos ha] at hp
        injection hp with hp
        subst hp
        refine ⟨?_, by omega, ?_⟩
        · rcases Nat.le_total a m with hle | hle
          · rw [Nat.max_eq_right hle]
            exact List.mem_cons_of_mem a hmem
          · rw [Nat.max_eq_left hle]
            exact List.mem_cons_self a rest
        · intro r hr hrb
          rcases List.mem_cons.mp hr with rfl | hr
          · exact Nat.le_max_left r m
          · exact Nat.le_trans (hmax r hr hrb) (Nat.le_max_right a m)
      · rw [if_neg ha] at hp
        injection hp with hp
        subst hp
        refine ⟨List.mem_cons_of_mem a hmem, hmlt, ?_⟩
        intro r hr hrb
        rcases List.mem_cons.mp hr with rfl | hr
        · exact absurd hrb ha
        · exact hmax r hr hrb

theorem drainWindow_mem (s : Store) (H i : Nat) :
    i ∈ drainWindow s H ↔
      ∃ p, mostRecentRateHeightBefore s H = some p ∧ p ≤ i ∧ i < H := by
  unfold drainWindow
  rcases hp : mostRecentRateHeightBefore s H with _ | p
  · simp
  · obtain ⟨-, hlt, -⟩ := maxBelow_spec H (s.rates.map Prod.fst) p hp
    rw [List.mem_range'_1]
    constructor
    · intro ⟨h1, h2⟩
      exact ⟨p, rfl, h1, by omega⟩
    · intro ⟨q, hq, h1, h2⟩
      injection hq with hq
      subst hq
      exact ⟨h1, by omega⟩

theorem window_earliest (s : Store) (H p E : Nat)
    (hp : mostRecentRateHeightBefore s H = some p) :
    p ≤ E ↔ ∀ r ∈ s.rates.map Prod.fst, ¬ (E < r ∧ r < H) := by
  obtain ⟨hmem, hlt, hmax⟩ := maxBelow_spec H (s.rates.map Prod.fst) p hp
  constructor
  · intro hpE r hr ⟨h1, h2⟩
    exact absurd (hmax r hr h2) (by omega)
  · intro hnone
    have := hnone p hmem
    omega

theorem drainBatches_cons_invalid (s : Store) (rates : Option Rates) (H : Nat)
    (b : TransactionBatch) (l : List TransactionBatch) (hv : b.valid = false) :
    drainBatches s rates H (b :: l) = drainBatches s rates H l := by
  conv_lhs => unfold drainBatches
  simp [hv]

theorem drainBatches_cons_replay (s : Store) (rates : Option Rates) (H : Nat)
    (b : TransactionBatch) (l : List TransactionBatch) (hv : b.valid = true)
    (hr : isReplayTransaction s b.hash = true) :
    drainBatches s rates H (b :: l) = drainBatches s rates H l := by
  conv_lhs => unfold drainBatches
  simp [hv, hr]

theorem drainBatches_cons_apply (s : Store) (rates : Option Rates) (H : Nat)
    (b : TransactionBatch) (l : List TransactionBatch) (hv : b.valid = true)
    (hr : isReplayTransaction s b.hash = false) :
    drainBatches s rates H (b :: l) =
      (match applyTransactionBatch s b rates H with
       | (s', some err) =>
         if err = .insufficientBalance then drainBatches s' rates H l else (s', true)
       | (s', none) => drainBatches s' rates H l) := by
  conv_lhs => unfold drainBatches
  simp [hv, hr]

theorem drainBatches_append (rates : Option Rates) (H : Nat)
    (l1 l2 : List TransactionBatch) :
    ∀ s : Store, drainBatches s rates H (l1 ++ l2) =
      (match drainBatches s rates H l1 with
       | (s', true) => (s', true)
       | (s', false) => drainBatches s' rates H l2) := by
  induction l1 with
  | nil =>
    intro s
    simp [drainBatches]
  | cons b rest ih =>
    intro s
    rw [List.cons_append]
    by_cases hv : b.valid = false
    · rw [drainBatches_cons_invalid s rates H b (rest ++ l2) hv,
        drainBatches_cons_invalid s rates H b rest hv]
      exact ih s
    · rw [Bool.not_eq_false] at hv
      by_cases hr : isReplayTransaction s b.hash = true
      · rw [drainBatches_cons_replay s rates H b (rest ++ l2) hv hr,
          drainBatches_cons_replay s rates H b rest hv hr]
        exact ih s
      · rw [Bool.not_eq_true] at hr
        rw [drainBatches_cons_apply s rates H b (rest ++ l2) hv hr,
          drainBatches_cons_apply s rates H b rest hv hr]
        rcases hab : applyTransactionBatch s b rates H with ⟨s', e⟩
        match e with
        | some err =>
          by_cases herr : err = PegErr.insufficientBalance
          · simp only [herr, if_pos rfl]
            exact ih s'
          · simp only [if_neg herr]
        | none => exact ih s'

theorem selectHolding_congr (s s' : Store) (hh : s'.holding = s.holding) :
    selectHolding s' = selectHolding s := by
  funext i
  unfold selectHolding
  rw [hh]

theorem drainHeights_eq_flat (rates : Option Rates) (H : Nat) (hs : List Nat) :
    ∀ s : Store, drainHeights s rates H hs =
      ((drainBatches s rates H (hs.flatMap (selectHolding s))).1, none) := by
  induction hs with
  | nil =>
    intro s
    simp [drainHeights, drainBatches]
  | cons i rest ih =>
    intro s
    rw [List.flatMap_cons, drainBatches_append rates H _ _ s]
    unfold drainHeights
    split
    next s' heq =>
      rfl
    next s' heq =>
      have hhold : s'.holding = s.holding := by
        have h2 := (drainBatches_inv rates H (selectHolding s i) s).1
        rw [heq] at h2
        exact h2
      rw [ih s', selectHolding_congr s s' hhold]

theorem applyHolding_eq_examined (s : Store) (H : Nat) :
    ApplyTransactionBatchesInHolding s H =
      ((drainBatches s (selectPendingRates s H) H (drainExamined s H)).1, none) := by
  unfold ApplyTransactionBatchesInHolding drainExamined drainWindow
  rcases hp : mostRecentRateHeightBefore s H with _ | p
  · simp [drainBatches]
  · exact drainHeights_eq_flat (selectPendingRates s H) H (List.range' p (H - p)) s

theorem applyTxList_head_insufficient (s : Store) (h : Hash) (i : Nat)
    (rates : Option Rates) (tx : Transaction) (rest : List Transaction)
    (hlt : s.balances tx.input.address tx.input.ptype < tx.input.amount) :
    applyTxList s h i rates (tx :: rest) = (s, some .insufficientBalance) := by
  unfold applyTxList subFromBalance
  rw [if_pos hlt]

theorem applyTxList_cons_rels (h : Hash) (rates : Option Rates) (tx : Transaction)
    (rest : List Transaction) (i : Nat) (s : Store)
    (hok : ¬ s.balances tx.input.address tx.input.ptype < tx.input.amount) :
    ∃ r, ((applyTxList s h i rates (tx :: rest)).1).relations =
      s.relations ++ ⟨addrIdOf tx.input.address, h, i, false, txIsConversion tx⟩ :: r := by
  unfold applyTxList subFromBalance
  rw [if_neg hok]
  dsimp only
  split
  next conv hc =>
    split
    · exact ⟨[], by simp [insertTransactionRelation]⟩
    · split
      · exact ⟨[], by simp [insertTransactionRelation]⟩
      · split
        · exact ⟨[], by simp [insertTransactionRelation]⟩
        next out heq =>
          obtain ⟨-, -, r2, h3⟩ := applyTxList_inv h rates rest (i + 1) _
          refine ⟨r2, h3.trans ?_⟩
          simp [insertTransactionRelation, addToBalance]
  next hc =>
    obtain ⟨-, -, tr, t3⟩ := applyTransfers_inv h i tx.input.ptype tx.transfers
      (insertTransactionRelation
        { s with balances := (updBal s.balances tx.input.address tx.input.ptype
            (s.balances tx.input.address tx.input.ptype - tx.input.amount)) }
        (addrIdOf tx.input.address) h i false (txIsConversion tx))
    obtain ⟨-, -, r2, h3⟩ := applyTxList_inv h rates rest (i + 1) _
    refine ⟨tr ++ r2, h3.trans ?_⟩
    rw [t3]
    simp [insertTransactionRelation]

theorem gradePhase_rels (bd : BlockData) (height : Nat) (s : Store) :
    (gradePhase bd height s).relations = s.relations := by
  unfold gradePhase
  rcases bd.gradedBlock with _ | g
  · rfl
  · rcases hw : g.winners with _ | ⟨w, ws⟩ <;> simp [hw, insertRate, insertGradeBlock]

theorem andThen_rels (p : Store × Option PegErr) (f : Store → Store × Option PegErr)
    (hf : ∀ st, ∃ r, ((f st).1).relations = st.relations ++ r) :
    ∃ r, ((andThen p f).1).relations = (p.1).relations ++ r := by
  rcases p with ⟨st, e⟩
  cases e
  · exact hf st
  · exact ⟨[], by simp [andThen]⟩

theorem drainPhase_rels (bd : BlockData) (height : Nat) (st : Store) :
    ∃ r, ((drainPhase bd height st).1).relations = st.relations ++ r := by
  unfold drainPhase
  rcases bd.gradedBlock with _ | g
  · exact ⟨[], by simp⟩
  · rcases hw : g.winners with _ | ⟨w, ws⟩
    · simp only [hw]
      exact ⟨[], by simp⟩
    · simp only [hw]
      exact (applyHolding_inv st height).2.2

theorem txPhase_rels (bd : BlockData) (height : Nat) (st : Store) :
    ∃ r, ((txPhase bd height st).1).relations = st.relations ++ r := by
  unfold txPhase
  rcases bd.txEntries with _ | entries
  · exact ⟨[], by simp⟩
  · exact (applyTransactionBlock_inv height bd.keyMR entries st).2.2

theorem burnPhase_rels (bd : BlockData) (st : Store) :
    ∃ r, ((burnPhase bd st).1).relations = st.relations ++ r := by
  unfold burnPhase ApplyFactoidBlock
  exact ⟨[], by simp [(creditBurns_inv (collectBurns bd.fctTxs) st).2.2]⟩

theorem rewardPhase_rels (bd : BlockData) (st : Store) :
    (rewardPhase bd st).relations = st.relations := by
  unfold rewardPhase
  rcases bd.gradedBlock with _ | g
  · rfl
  · exact (applyGradedOPRBlock_inv g.winners st).2.2

theorem syncBlock_rels (s : Store) (bd : BlockData) (h : Nat) :
    ∃ r, ((SyncBlock s bd h).1).relations = s.relations ++ r := by
  by_cases hf : bd.fetchFail = true
  · refine ⟨[], ?_⟩
    unfold SyncBlock
    simp [hf]
  · rw [Bool.not_eq_true] at hf
    rw [syncBlock_decomp s bd h hf]
    have htail : ∀ st : Store,
        ∃ r, ((andThen (txPhase bd h st) (fun s3 =>
          andThen (burnPhase bd s3) (fun s4 => (rewardPhase bd s4, none)))).1).relations
            = st.relations ++ r := by
      intro st
      have hinner : ∀ s3 : Store,
          ∃ r, ((andThen (burnPhase bd s3) (fun s4 =>
            (rewardPhase bd s4, none))).1).relations = s3.relations ++ r := by
        intro s3
        obtain ⟨r1, hr1⟩ := andThen_rels (burnPhase bd s3)
          (fun s4 => (rewardPhase bd s4, none))
          (fun s4 => ⟨[], by simp [rewardPhase_rels]⟩)
        obtain ⟨r2, hr2⟩ := burnPhase_rels bd s3
        exact ⟨r2 ++ r1, by rw [hr1, hr2, List.append_assoc]⟩
      obtain ⟨r1, hr1⟩ := andThen_rels (txPhase bd h st) _ hinner
      obtain ⟨r2, hr2⟩ := txPhase_rels bd h st
      exact ⟨r2 ++ r1, by rw [hr1, hr2, List.append_assoc]⟩
    obtain ⟨r1, hr1⟩ := andThen_rels (drainPhase bd h (gradePhase bd h s)) _ htail
    obtain ⟨r2, hr2⟩ := drainPhase_rels bd h (gradePhase bd h s)
    refine ⟨r2 ++ r1, ?_⟩
    rw [hr1, hr2, gradePhase_rels, List.append_assoc]

/-- Claim C2: a conversion-bearing batch is, at its entry height, only
inserted into holding (balances and relation rows untouched, so it is not
executed in the block it entered); the drain at a current height walks exactly
the entered heights of the half-open window from the most recent rate height
strictly before the current height, processing exactly the held batches of
those heights; and an entered height lies at or above that window base
exactly when no recorded rate epoch lies strictly between it and the current
height — so a batch is picked up precisely at the first rate-epoch height
after its entry height. -/
theorem c2_deferred_conversion_holding :
    (∀ (s : Store) (b : TransactionBatch) (rest : List (Option TransactionBatch))
        (height : Nat) (keyMR : Hash),
      b.valid = true → isReplayTransaction s b.hash = false → hasConversions b = true →
      ApplyTransactionBlock s (some b :: rest) height keyMR =
        ApplyTransactionBlock (insertTransactionBatchHolding s b height keyMR) rest
          height keyMR ∧
      (insertTransactionBatchHolding s b height keyMR).balances = s.balances ∧
      (insertTransactionBatchHolding s b height keyMR).relations = s.relations ∧
      (insertTransactionBatchHolding s b height keyMR).holding
        = s.holding ++ [⟨b, height, keyMR⟩]) ∧
    (∀ (s : Store) (H i : Nat),
      i ∈ drainWindow s H ↔
        ∃ p, mostRecentRateHeightBefore s H = some p ∧ p ≤ i ∧ i < H) ∧
    (∀ (s : Store) (H : Nat),
      ApplyTransactionBatchesInHolding s H =
        ((drainBatches s (selectPendingRates s H) H (drainExamined s H)).1, none)) ∧
    (∀ (s : Store) (H p E : Nat), mostRecentRateHeightBefore s H = some p →
      (p ≤ E ∧ E < H ↔
        E < H ∧ ∀ r ∈ s.rates.map Prod.fst, ¬ (E < r ∧ r < H))) := by
  refine ⟨?_, ?_, ?_, ?_⟩
  · intro s b rest height keyMR hv hr hc
    refine ⟨?_, rfl, rfl, rfl⟩
    conv_lhs => unfold ApplyTransactionBlock
    simp [hv, hr, hc]
  · exact fun s H i => drainWindow_mem s H i
  · exact fun s H => applyHolding_eq_examined s H
  · intro s H p E hp
    constructor
    · intro ⟨h1, h2⟩
      exact ⟨h2, (window_earliest s H p E hp).mp h1⟩
    · intro ⟨h1, h2⟩
      exact ⟨(window_earliest s H p E hp).mpr h2, h1⟩

/-- Witness for C2 at a concrete input: processing the concrete conversion
batch at height 7 only inserts it into holding. -/
theorem c2_deferred_conversion_holding_witness :
    ApplyTransactionBlock c2store [some c2batch] 7 ⟨9⟩ =
      ApplyTransactionBlock (insertTransactionBatchHolding c2store c2batch 7 ⟨9⟩) [] 7 ⟨9⟩ :=
  (c2_deferred_conversion_holding.1 c2store c2batch [] 7 ⟨9⟩ (by decide) (by decide)
    (by decide)).1

/-- Claim C8: both application paths check the replay mark before applying —
a valid batch already marked as applied is skipped, with no state change, by
the immediate path and by the holding drain; a successful application of a
non-empty batch marks its hash as applied; and the replay mark is monotone
across a whole synced block.  Together these give at-most-once application of
every batch hash across the ledger history. -/
theorem c8_replay_at_most_once :
    (∀ (s : Store) (b : TransactionBatch) (rest : List (Option TransactionBatch))
        (height : Nat) (k : Hash), b.valid = true → isReplayTransaction s b.hash = true →
      ApplyTransactionBlock s (some b :: rest) height k =
        ApplyTransactionBlock s rest height k) ∧
    (∀ (s : Store) (rates : Option Rates) (H : Nat) (b : TransactionBatch)
        (l : List TransactionBatch), b.valid = true → isReplayTransaction s b.hash = true →
      drainBatches s rates H (b :: l) = drainBatches s rates H l) ∧
    (∀ (s : Store) (b : TransactionBatch) (rates : Option Rates) (H : Nat)
        (t : Transaction) (ts : List Transaction), b.transactions = t :: ts →
      (applyTransactionBatch s b rates H).2 = none →
      isReplayTransaction ((applyTransactionBatch s b rates H).1) b.hash = true) ∧
    (∀ (s : Store) (bd : BlockData) (h : Nat) (hash : Hash),
      isReplayTransaction s hash = true →
      isReplayTransaction ((SyncBlock s bd h).1) hash = true) := by
  refine ⟨?_, ?_, ?_, ?_⟩
  · intro s b rest height k hv hr
    conv_lhs => unfold ApplyTransactionBlock
    simp [hv, hr]
  · exact fun s rates H b l hv hr => drainBatches_cons_replay s rates H b l hv hr
  · intro s b rates H t ts htx hnone
    unfold applyTransactionBatch at hnone ⊢
    rw [htx] at hnone ⊢
    by_cases hlt : s.balances t.input.address t.input.ptype < t.input.amount
    · rw [applyTxList_head_insufficient s b.hash 0 rates t ts hlt] at hnone
      exact absurd hnone (by simp)
    · obtain ⟨r, hrels⟩ := applyTxList_cons_rels b.hash rates t ts 0 s hlt
      unfold isReplayTransaction
      rw [List.any_eq_true]
      refine ⟨⟨addrIdOf t.input.address, b.hash, 0, false, txIsConversion t⟩, ?_, by simp⟩
      rw [hrels]
      simp
  · intro s bd h hash hrep
    obtain ⟨r, hrels⟩ := syncBlock_rels s bd h
    unfold isReplayTransaction at hrep ⊢
    rw [List.any_eq_true] at hrep ⊢
    obtain ⟨row, hmem, hrow⟩ := hrep
    exact ⟨row, by rw [hrels]; exact List.mem_append_left r hmem, hrow⟩

/-- Witness for C8 at a concrete input: applying the concrete funded batch
succeeds and marks its hash as a replay. -/
theorem c8_replay_at_most_once_witness :
    isReplayTransaction ((applyTransactionBatch c8store c8batch none 5).1) c8batch.hash
      = true :=
  c8_replay_at_most_once.2.2.1 c8store c8batch none 5 c8tx [] rfl (by decide)

/-- Claim C10: draining never removes batches from the holding table (the
drain's resulting holding table equals the one it started from); a valid batch
already marked as applied is skipped by the drain with no state change — the
replay check being the only thing preventing its re-application; a batch whose
application fails keeps the holding table unchanged, so a batch dropped for
failed validation or insufficient balance stays in holding; and every held
batch whose entry height falls inside a drain's window is among the batches
that drain examines. -/
theorem c10_drain_preserves_holding :
    (∀ (s : Store) (H : Nat),
      ((ApplyTransactionBatchesInHolding s H).1).holding = s.holding) ∧
    (∀ (s : Store) (rates : Option Rates) (H : Nat) (b : TransactionBatch)
        (l : List TransactionBatch), b.valid = true →
      isReplayTransaction s b.hash = true →
      drainBatches s rates H (b :: l) = drainBatches s rates H l) ∧
    (∀ (s : Store) (rates : Option Rates) (H : Nat) (b : TransactionBatch)
        (l : List TransactionBatch), b.valid = false →
      drainBatches s rates H (b :: l) = drainBatches s rates H l) ∧
    (∀ (s : Store) (b : TransactionBatch) (rates : Option Rates) (H : Nat),
      ((applyTransactionBatch s b rates H).1).holding = s.holding) ∧
    (∀ (s : Store) (H : Nat) (hb : HeldBatch), hb ∈ s.holding →
      ∀ p, mostRecentRateHeightBefore s H = some p → p ≤ hb.enteredHeight →
        hb.enteredHeight < H → hb.batch ∈ drainExamined s H) := by
  refine ⟨?_, ?_, ?_, ?_, ?_⟩
  · exact fun s H => (applyHolding_inv s H).1
  · exact fun s rates H b l hv hr => drainBatches_cons_replay s rates H b l hv hr
  · exact fun s rates H b l hv => drainBatches_cons_invalid s rates H b l hv
  · exact fun s b rates H => (applyTransactionBatch_inv s b rates H).1
  · intro s H hb hmem p hp hple hlt
    unfold drainExamined
    rw [List.mem_flatMap]
    refine ⟨hb.enteredHeight, ?_, ?_⟩
    · exact (drainWindow_mem s H hb.enteredHeight).mpr ⟨p, hp, hple, hlt⟩
    · unfold selectHolding
      rw [List.mem_map]
      refine ⟨hb, ?_, rfl⟩
      rw [List.mem_filter]
      exact ⟨hmem, by simp⟩

/-- Witness for C10 at a concrete input: the concrete held batch (entered at
height 2) is among the batches the drain at height 3 examines, and the drain
leaves the holding table unchanged. -/
theorem c10_drain_preserves_holding_witness :
    c1batch ∈ drainExamined c1store 3 ∧
    ((ApplyTransactionBatchesInHolding c1store 3).1).holding = c1store.holding :=
  ⟨c10_drain_preserves_holding.2.2.2.2 c1store 3 ⟨c1batch, 2, ⟨7⟩⟩ (by decide) 2
      (by decide) (by decide) (by decide),
   c10_drain_preserves_holding.1 c1store 3⟩

end Pegnetd
